import Mathlib

/-!
Verification of the memory module of the gfx core (`src/core/src/memory.rs`):
the `Pod` marker allowlist, the `cast_slice` reinterpretation function, and
the `Access`/`Bind` bit-flag sets.
-/

namespace Memory

/-- The Rust types over which the `Pod` marker of `memory.rs` is discussed:
the twelve primitive numeric types named in the `impl_pod! \x7b ty = ... \x7d`
invocation, plus fixed-size arrays `[T; N]` of them. -/
inductive PodType : Type
  | isize
  | usize
  | i8
  | u8
  | i16
  | u16
  | i32
  | u32
  | i64
  | u64
  | f32
  | f64
  | array : PodType → Nat → PodType
deriving DecidableEq

/-- `mem::size_of` for those types, on a 64-bit target (so `isize`/`usize`
are 8 bytes). An array `[T; N]` occupies `N * size_of T` bytes: every type
here has alignment dividing its size, so arrays have no padding. -/
def size_of : PodType → Nat
  | .isize => 8
  | .usize => 8
  | .i8 => 1
  | .u8 => 1
  | .i16 => 2
  | .u16 => 2
  | .i32 => 4
  | .u32 => 4
  | .i64 => 8
  | .u64 => 8
  | .f32 => 4
  | .f64 => 8
  | .array t n => n * size_of t

/-- Which types carry the `Pod` marker, exactly as registered by the two
`impl_pod!` invocations: every primitive in the `ty = ...` list, and
`[T; N]` for `T` itself `Pod` and `N` one of the literals `0 1 2 ... 32`. -/
def Pod : PodType → Bool
  | .isize => true
  | .usize => true
  | .i8 => true
  | .u8 => true
  | .i16 => true
  | .u16 => true
  | .i32 => true
  | .u32 => true
  | .i64 => true
  | .u64 => true
  | .f32 => true
  | .f64 => true
  | .array t n => Pod t && decide (n ≤ 32)

/-- `true` on the primitive (non-array) types: those registered by the
`ty = ...` arm of `impl_pod!`. -/
def isPrim : PodType → Bool
  | .array _ _ => false
  | _ => true

/-- `true` when a zero-length array constructor occurs along the array spine
of the type, i.e. exactly when `size_of` vanishes. -/
def has_zero_len_array : PodType → Bool
  | .array _ 0 => true
  | .array t (_ + 1) => has_zero_len_array t
  | _ => false

/-- `usize::MAX + 1` on the 64-bit target: modulus of `wrapping_mul`. -/
def USIZE_SIZE : Nat := 2 ^ 64

/-- `isize::MAX` on the 64-bit target: Rust guarantees the byte size of any
slice never exceeds this. -/
def ISIZE_MAX : Nat := 2 ^ 63 - 1

/-- `usize::wrapping_mul` on the 64-bit target. -/
def wrapping_mul (a b : Nat) : Nat := a * b % USIZE_SIZE

/-- A Rust slice `&[A]`, modelled by its element count and the bytes of the
memory region it views (each entry one byte). -/
structure Slice (A : PodType) : Type where
  bytes : List Nat
  len : Nat
deriving DecidableEq

/-- Validity of the model slice, which Rust guarantees for every real
`&[A]`: it views exactly `size_of A * len` bytes, and that byte size does
not exceed `isize::MAX`. -/
def Slice.Valid {A : PodType} (s : Slice A) : Prop :=
  s.bytes.length = size_of A * s.len ∧ size_of A * s.len ≤ ISIZE_MAX

instance {A : PodType} (s : Slice A) : Decidable s.Valid :=
  inferInstanceAs (Decidable (_ ∧ _))

/-- The two ways `cast_slice` can panic: the division `raw_len / size_of B`
panics when `size_of B = 0`, and the `assert_eq!` panics when `raw_len` is
not a multiple of `size_of B`. -/
inductive CastError : Type
  | divByZero
  | assertFailed
deriving DecidableEq

/-- `cast_slice` from `memory.rs`:

`raw_len = size_of A |wrapping_mul| slice.len()`;
`len = raw_len / size_of B` (a Rust integer division, which panics on a
zero divisor); `assert_eq!(raw_len, size_of B |wrapping_mul| len)`; on
success, `slice::from_raw_parts` returns a view of the same bytes with
element type `B` and length `len`. A panic is modelled as `Except.error`. -/
def cast_slice (A B : PodType) (s : Slice A) : Except CastError (Slice B) :=
  if size_of B = 0 then .error .divByZero
  else
    let raw_len := wrapping_mul (size_of A) s.len
    let len := raw_len / size_of B
    if raw_len = wrapping_mul (size_of B) len then .ok ⟨s.bytes, len⟩
    else .error .assertFailed

/-- The `Access` bit-flag set of `memory.rs` (`bits` is the backing `u8`). -/
structure Access : Type where
  bits : Nat
deriving DecidableEq

/-- `Access::READ = 0x1`. -/
def Access.READ : Access := ⟨0x1⟩

/-- `Access::WRITE = 0x2`. -/
def Access.WRITE : Access := ⟨0x2⟩

/-- `Access::RW = 0x3`. -/
def Access.RW : Access := ⟨0x3⟩

/-- The `BitOr` implementation `bitflags!` generates for `Access`: bitwise
union of the backing bits. -/
def Access.or (a b : Access) : Access := ⟨a.bits ||| b.bits⟩

/-- The `Bind` bit-flag set of `memory.rs` (`bits` is the backing `u8`). -/
structure Bind : Type where
  bits : Nat
deriving DecidableEq

/-- `Bind::RENDER_TARGET = 0x1`. -/
def Bind.RENDER_TARGET : Bind := ⟨0x1⟩

/-- `Bind::DEPTH_STENCIL = 0x2`. -/
def Bind.DEPTH_STENCIL : Bind := ⟨0x2⟩

/-- `Bind::SHADER_RESOURCE = 0x4`. -/
def Bind.SHADER_RESOURCE : Bind := ⟨0x4⟩

/-- `Bind::UNORDERED_ACCESS = 0x8`. -/
def Bind.UNORDERED_ACCESS : Bind := ⟨0x8⟩

/-- The `BitOr` implementation `bitflags!` generates for `Bind`: bitwise
union of the backing bits. -/
def Bind.or (a b : Bind) : Bind := ⟨a.bits ||| b.bits⟩

/-- A product of byte sizes bounded by `isize::MAX` is below the wrapping
modulus, so `wrapping_mul` computes it exactly. -/
theorem wrapping_mul_eq_of_le (a b : Nat) (h : a * b ≤ ISIZE_MAX) :
    wrapping_mul a b = a * b := by
  have hlt : a * b < USIZE_SIZE :=
    lt_of_le_of_lt h (by unfold ISIZE_MAX USIZE_SIZE; decide)
  unfold wrapping_mul
  exact Nat.mod_eq_of_lt hlt

/-- `b * (n / b) = n` exactly when `b` divides `n` (the `assert_eq!`
condition of `cast_slice`, with both products known exact). -/
theorem mul_div_self_eq_iff_dvd (b n : Nat) : b * (n / b) = n ↔ b ∣ n := by
  constructor
  · intro h
    exact ⟨n / b, h.symm⟩
  · intro h
    exact Nat.mul_div_cancel' h

/-- Characterization of `cast_slice` when `size_of B` is positive and the
source slice respects Rust's `isize::MAX` byte-size bound: the wrapping
products are exact, and the call succeeds exactly on divisibility, with the
same bytes and the quotient length. -/
theorem cast_slice_spec (A B : PodType) (s : Slice A)
    (hB : 0 < size_of B) (hs : size_of A * s.len ≤ ISIZE_MAX) :
    cast_slice A B s =
      if size_of B ∣ size_of A * s.len
      then Except.ok ⟨s.bytes, size_of A * s.len / size_of B⟩
      else Except.error CastError.assertFailed := by
  have hB0 : size_of B ≠ 0 := Nat.pos_iff_ne_zero.mp hB
  have hraw : wrapping_mul (size_of A) s.len = size_of A * s.len :=
    wrapping_mul_eq_of_le _ _ hs
  have hle : size_of B * (size_of A * s.len / size_of B) ≤ ISIZE_MAX := by
    refine le_trans ?_ hs
    rw [Nat.mul_comm]
    exact Nat.div_mul_le_self _ _
  have hcheck : wrapping_mul (size_of B) (size_of A * s.len / size_of B)
      = size_of B * (size_of A * s.len / size_of B) :=
    wrapping_mul_eq_of_le _ _ hle
  unfold cast_slice
  rw [if_neg hB0, hraw]
  show (if size_of A * s.len
        = wrapping_mul (size_of B) (size_of A * s.len / size_of B)
      then Except.ok (Slice.mk s.bytes (size_of A * s.len / size_of B))
      else (Except.error CastError.assertFailed : Except CastError (Slice B)))
    = if size_of B ∣ size_of A * s.len
      then Except.ok ⟨s.bytes, size_of A * s.len / size_of B⟩
      else Except.error CastError.assertFailed
  rw [hcheck]
  by_cases hdvd : size_of B ∣ size_of A * s.len
  · rw [if_pos hdvd, if_pos ((mul_div_self_eq_iff_dvd _ _).mpr hdvd).symm]
  · rw [if_neg hdvd, if_neg ?_]
    intro heq
    exact hdvd ((mul_div_self_eq_iff_dvd _ _).mp heq.symm)

/-- Idempotence of bitwise or on `Nat`, the representation backing both
flag sets. -/
theorem lor_self_eq (n : Nat) : n ||| n = n :=
  Nat.eq_of_testBit_eq fun i => by rw [Nat.testBit_lor, Bool.or_self]

/-- C1: for POD types `A`, `B` with `size_of B > 0` and any source slice
of `A`, `cast_slice` aborts via the assertion, returning nothing, exactly
when `size_of A * len` is not evenly divisible by `size_of B`; otherwise it
returns a result. -/
theorem cast_slice_fails_iff_indivisible (A B : PodType) (s : Slice A)
    (_hA : Pod A = true) (_hB : Pod B = true) (hBpos : 0 < size_of B)
    (hs : s.Valid) :
    (cast_slice A B s = .error .assertFailed
      ↔ ¬ size_of B ∣ size_of A * s.len)
    ∧ ((∃ r, cast_slice A B s = .ok r) ↔ size_of B ∣ size_of A * s.len) := by
  rw [cast_slice_spec A B s hBpos hs.2]
  by_cases hdvd : size_of B ∣ size_of A * s.len
  · simp [hdvd]
  · simp [hdvd]

/-- Witness for C1, the spec's own example: 3 elements of `i32` (12 bytes)
cast to `i64` (8 bytes) hit the assertion. -/
theorem cast_slice_fails_iff_indivisible_witness :
    Pod PodType.i32 = true ∧ Pod PodType.i64 = true
    ∧ 0 < size_of PodType.i64
    ∧ (Slice.Valid (A := PodType.i32) ⟨List.replicate 12 0, 3⟩)
    ∧ cast_slice PodType.i32 PodType.i64 ⟨List.replicate 12 0, 3⟩
        = .error .assertFailed := by
  refine ⟨rfl, rfl, by decide, by decide, ?_⟩
  exact (cast_slice_fails_iff_indivisible PodType.i32 PodType.i64
    ⟨List.replicate 12 0, 3⟩ rfl rfl (by decide) (by decide)).1.mpr (by decide)

/-- C2: for POD types `A`, `B` with `size_of B > 0` and any source slice
whose byte length divides evenly, `cast_slice` succeeds and returns a view
of the identical bytes with length `size_of A * len / size_of B`. -/
theorem cast_slice_divisible_ok (A B : PodType) (s : Slice A)
    (_hA : Pod A = true) (_hB : Pod B = true) (hBpos : 0 < size_of B)
    (hs : s.Valid) (hdvd : size_of B ∣ size_of A * s.len) :
    cast_slice A B s = .ok ⟨s.bytes, size_of A * s.len / size_of B⟩ := by
  rw [cast_slice_spec A B s hBpos hs.2, if_pos hdvd]

/-- Witness for C2: one `u64` element (8 bytes) cast to `u32` yields the
same bytes viewed as 2 elements. -/
theorem cast_slice_divisible_ok_witness :
    Pod PodType.u64 = true ∧ Pod PodType.u32 = true
    ∧ 0 < size_of PodType.u32
    ∧ (Slice.Valid (A := PodType.u64) ⟨List.replicate 8 9, 1⟩)
    ∧ size_of PodType.u32 ∣ size_of PodType.u64 * 1
    ∧ cast_slice PodType.u64 PodType.u32 ⟨List.replicate 8 9, 1⟩
        = .ok ⟨List.replicate 8 9, 2⟩ := by
  refine ⟨rfl, rfl, by decide, by decide, by decide, ?_⟩
  exact cast_slice_divisible_ok PodType.u64 PodType.u32 ⟨List.replicate 8 9, 1⟩
    rfl rfl (by decide) (by decide) (by decide)

/-- C5: for POD `A`, `B` and a source slice respecting Rust's slice byte
bound, both `wrapping_mul` products in `cast_slice` equal the exact
integer products (no wrap-around), and when the divisibility holds the
recomputed check equals `raw_len` exactly. -/
theorem cast_slice_arith_exact (A B : PodType) (s : Slice A)
    (_hA : Pod A = true) (_hB : Pod B = true) (hs : s.Valid) :
    wrapping_mul (size_of A) s.len = size_of A * s.len
    ∧ wrapping_mul (size_of B) (size_of A * s.len / size_of B)
        = size_of B * (size_of A * s.len / size_of B)
    ∧ (size_of B ∣ size_of A * s.len →
        size_of B * (size_of A * s.len / size_of B) = size_of A * s.len) := by
  refine ⟨wrapping_mul_eq_of_le _ _ hs.2, ?_, fun h => Nat.mul_div_cancel' h⟩
  apply wrapping_mul_eq_of_le
  refine le_trans ?_ hs.2
  rw [Nat.mul_comm]
  exact Nat.div_mul_le_self _ _

/-- Witness for C5 at 3 elements of `i32` cast towards `i64`. -/
theorem cast_slice_arith_exact_witness :
    (Slice.Valid (A := PodType.i32) ⟨List.replicate 12 0, 3⟩)
    ∧ wrapping_mul (size_of PodType.i32) 3 = size_of PodType.i32 * 3 := by
  refine ⟨by decide, ?_⟩
  exact (cast_slice_arith_exact PodType.i32 PodType.i64
    ⟨List.replicate 12 0, 3⟩ rfl rfl (by decide)).1

/-- C10: for every POD `A` and every POD target `B` of size zero (the code
admits such types, e.g. `[u8; 0]`), `cast_slice` panics with a division by
zero for every source slice, the empty slice included. -/
theorem cast_slice_zero_size_target_panics (A B : PodType) (s : Slice A)
    (_hA : Pod A = true) (_hB : Pod B = true) (hB0 : size_of B = 0) :
    cast_slice A B s = .error .divByZero := by
  unfold cast_slice
  rw [if_pos hB0]

/-- Witness for C10: the admitted POD type `[u8; 0]` has size zero and the
cast from the empty `u8` slice panics with a division by zero. -/
theorem cast_slice_zero_size_target_panics_witness :
    Pod (PodType.array PodType.u8 0) = true
    ∧ size_of (PodType.array PodType.u8 0) = 0
    ∧ cast_slice PodType.u8 (PodType.array PodType.u8 0) ⟨[], 0⟩
        = .error .divByZero :=
  ⟨rfl, rfl, cast_slice_zero_size_target_panics PodType.u8
    (PodType.array PodType.u8 0) ⟨[], 0⟩ rfl rfl rfl⟩

/-- C3 counterexample: the array arm of `impl_pod!` registers length 0, so
`[u8; 0]` carries the `Pod` marker yet has size zero. -/
theorem pod_zero_size_counterexample :
    Pod (PodType.array PodType.u8 0) = true
    ∧ size_of (PodType.array PodType.u8 0) = 0 :=
  ⟨rfl, rfl⟩

/-- C3 amended: every allowlisted primitive has nonzero size, and a type
has nonzero size exactly when no zero-length array occurs in it; but
zero-size POD types do exist (the zero-length array registrations), so the
division in `cast_slice` is not always guarded. -/
theorem size_of_pos_characterization :
    (∀ t, isPrim t = true → 0 < size_of t)
    ∧ (∀ t, 0 < size_of t ↔ has_zero_len_array t = false)
    ∧ (∃ t, Pod t = true ∧ size_of t = 0) := by
  refine ⟨?_, ?_, ⟨PodType.array PodType.u8 0, rfl, rfl⟩⟩
  · intro t ht
    cases t
    case array u n => simp [isPrim] at ht
    all_goals decide
  · intro t
    induction t
    case array u n ih =>
      cases n with
      | zero => simp [size_of, has_zero_len_array]
      | succ m =>
        rw [show size_of (PodType.array u (m + 1)) = (m + 1) * size_of u
              from rfl,
            show has_zero_len_array (PodType.array u (m + 1))
              = has_zero_len_array u from rfl,
            ← ih, Nat.pos_iff_ne_zero, Nat.pos_iff_ne_zero, Ne, Ne,
            Nat.mul_eq_zero]
        simp
    all_goals decide

/-- Witness for C3 (amended): the primitive `u8` has positive size. -/
theorem size_of_pos_characterization_witness :
    isPrim PodType.u8 = true ∧ 0 < size_of PodType.u8 :=
  ⟨rfl, size_of_pos_characterization.1 PodType.u8 rfl⟩

/-- C4 counterexample: `u8` is POD, yet `[u8; 33]` carries no `Pod` marker
— the `impl_pod!` array arm stops at length 32, so the marker is not
attached to arrays of every length. -/
theorem pod_array_length_counterexample :
    Pod PodType.u8 = true ∧ Pod (PodType.array PodType.u8 33) = false := by
  exact ⟨rfl, by decide⟩

/-- C4 amended: the `Pod` marker is attached to exactly the twelve listed
primitives and the arrays `[T; N]` with `T` POD and `N ≤ 32` (the literals
`0 1 ... 32` of the `impl_pod!` invocation). -/
theorem pod_marker_characterization (t : PodType) :
    Pod t = true
      ↔ (isPrim t = true
          ∨ ∃ u n, t = PodType.array u n ∧ Pod u = true ∧ n ≤ 32) := by
  cases t
  case array u n =>
    simp only [Pod, isPrim, Bool.and_eq_true, decide_eq_true_eq,
      Bool.false_eq_true, false_or, PodType.array.injEq]
    constructor
    · intro h
      exact ⟨u, n, ⟨rfl, rfl⟩, h.1, h.2⟩
    · rintro ⟨u', n', ⟨rfl, rfl⟩, h⟩
      exact h
  all_goals simp [Pod, isPrim]

/-- Witness for C4 (amended): `[u8; 7]` is recognized through the array
side of the characterization. -/
theorem pod_marker_characterization_witness :
    Pod (PodType.array PodType.u8 7) = true :=
  (pod_marker_characterization (PodType.array PodType.u8 7)).mpr
    (Or.inr ⟨PodType.u8, 7, rfl, rfl, by decide⟩)

/-- C6 counterexample: `[u8; 0]` is POD, the empty slice of it is a valid
slice, and the self-cast panics with a division by zero instead of
succeeding. -/
theorem cast_slice_roundtrip_counterexample :
    Pod (PodType.array PodType.u8 0) = true
    ∧ (Slice.Valid (A := PodType.array PodType.u8 0) ⟨[], 0⟩)
    ∧ cast_slice (PodType.array PodType.u8 0) (PodType.array PodType.u8 0)
        ⟨[], 0⟩ = .error .divByZero := by
  refine ⟨rfl, by decide, rfl⟩

/-- C6 amended: for every POD `A` of nonzero size and every slice of `A`
(the empty slice included), the self-cast succeeds and returns a slice
equal in length and byte content. -/
theorem cast_slice_roundtrip_pos_size (A : PodType) (_hA : Pod A = true)
    (hApos : 0 < size_of A) (s : Slice A) (hs : s.Valid) :
    cast_slice A A s = .ok ⟨s.bytes, s.len⟩ := by
  rw [cast_slice_spec A A s hApos hs.2, if_pos (dvd_mul_right _ _),
      Nat.mul_div_cancel_left s.len hApos]

/-- Witness for C6 (amended): a 2-element `u8` slice self-casts to itself. -/
theorem cast_slice_roundtrip_pos_size_witness :
    Pod PodType.u8 = true ∧ 0 < size_of PodType.u8
    ∧ (Slice.Valid (A := PodType.u8) ⟨[5, 6], 2⟩)
    ∧ cast_slice PodType.u8 PodType.u8 ⟨[5, 6], 2⟩ = .ok ⟨[5, 6], 2⟩ := by
  refine ⟨rfl, by decide, by decide, ?_⟩
  exact cast_slice_roundtrip_pos_size PodType.u8 rfl (by decide)
    ⟨[5, 6], 2⟩ (by decide)

/-- C7: whenever `cast_slice` succeeds, the byte length of the result
equals the byte length of the source:
`len(result) * size_of B = len(s) * size_of A`. -/
theorem cast_slice_byte_length_preserved (A B : PodType) (s : Slice A)
    (r : Slice B) (_hA : Pod A = true) (_hB : Pod B = true) (hs : s.Valid)
    (h : cast_slice A B s = .ok r) :
    r.len * size_of B = s.len * size_of A := by
  by_cases hB0 : size_of B = 0
  · unfold cast_slice at h
    rw [if_pos hB0] at h
    exact Except.noConfusion h
  · rw [cast_slice_spec A B s (Nat.pos_of_ne_zero hB0) hs.2] at h
    by_cases hdvd : size_of B ∣ size_of A * s.len
    · rw [if_pos hdvd] at h
      cases h
      show size_of A * s.len / size_of B * size_of B = s.len * size_of A
      rw [Nat.div_mul_cancel hdvd, Nat.mul_comm]
    · rw [if_neg hdvd] at h
      exact Except.noConfusion h

/-- Witness for C7: one `u64` element cast to 8 `u8` elements preserves
the byte length. -/
theorem cast_slice_byte_length_preserved_witness :
    cast_slice PodType.u64 PodType.u8 ⟨List.replicate 8 3, 1⟩
        = .ok ⟨List.replicate 8 3, 8⟩
    ∧ (8 : Nat) * size_of PodType.u8 = 1 * size_of PodType.u64 := by
  refine ⟨rfl, ?_⟩
  exact cast_slice_byte_length_preserved PodType.u64 PodType.u8
    ⟨List.replicate 8 3, 1⟩ ⟨List.replicate 8 3, 8⟩ rfl rfl (by decide) rfl

/-- C8: for both `Access` and `Bind`, the generated bitwise union is
idempotent, commutative and associative, and `RW` is `READ` unioned with
`WRITE`. -/
theorem flag_union_properties :
    (∀ x : Access, Access.or x x = x)
    ∧ (∀ x y : Access, Access.or x y = Access.or y x)
    ∧ (∀ x y z : Access,
        Access.or (Access.or x y) z = Access.or x (Access.or y z))
    ∧ Access.RW = Access.or Access.READ Access.WRITE
    ∧ (∀ x : Bind, Bind.or x x = x)
    ∧ (∀ x y : Bind, Bind.or x y = Bind.or y x)
    ∧ (∀ x y z : Bind,
        Bind.or (Bind.or x y) z = Bind.or x (Bind.or y z)) := by
  refine ⟨fun x => ?_, fun x y => ?_, fun x y z => ?_, rfl,
    fun x => ?_, fun x y => ?_, fun x y z => ?_⟩
  · show Access.mk (x.bits ||| x.bits) = x
    rw [lor_self_eq]
  · show Access.mk (x.bits ||| y.bits) = Access.mk (y.bits ||| x.bits)
    rw [Nat.lor_comm]
  · show Access.mk (x.bits ||| y.bits ||| z.bits)
      = Access.mk (x.bits ||| (y.bits ||| z.bits))
    rw [Nat.lor_assoc]
  · show Bind.mk (x.bits ||| x.bits) = x
    rw [lor_self_eq]
  · show Bind.mk (x.bits ||| y.bits) = Bind.mk (y.bits ||| x.bits)
    rw [Nat.lor_comm]
  · show Bind.mk (x.bits ||| y.bits ||| z.bits)
      = Bind.mk (x.bits ||| (y.bits ||| z.bits))
    rw [Nat.lor_assoc]

/-- C9: every valid 4-element `f32` slice casts to `u8` successfully,
yielding exactly 16 elements over the identical 16 bytes, in stored
order. -/
theorem cast_slice_f32x4_u8 (s : Slice PodType.f32) (hs : s.Valid)
    (h4 : s.len = 4) :
    cast_slice PodType.f32 PodType.u8 s = .ok ⟨s.bytes, 16⟩
    ∧ s.bytes.length = 16 := by
  constructor
  · rw [cast_slice_spec PodType.f32 PodType.u8 s (by decide) hs.2, h4]
    norm_num [size_of]
  · rw [hs.1, h4]
    decide

/-- Witness for C9: the IEEE-754 little-endian bytes of `[1.0f32, 2.0,
3.0, 4.0]` reinterpret to the same 16 bytes as `u8`. -/
theorem cast_slice_f32x4_u8_witness :
    (Slice.Valid (A := PodType.f32)
      ⟨[0, 0, 128, 63, 0, 0, 0, 64, 0, 0, 64, 64, 0, 0, 128, 64], 4⟩)
    ∧ cast_slice PodType.f32 PodType.u8
        ⟨[0, 0, 128, 63, 0, 0, 0, 64, 0, 0, 64, 64, 0, 0, 128, 64], 4⟩
      = .ok ⟨[0, 0, 128, 63, 0, 0, 0, 64, 0, 0, 64, 64, 0, 0, 128, 64], 16⟩ := by
  refine ⟨by decide, ?_⟩
  exact (cast_slice_f32x4_u8
    ⟨[0, 0, 128, 63, 0, 0, 0, 64, 0, 0, 64, 64, 0, 0, 128, 64], 4⟩
    (by decide) rfl).1

end Memory
